import Mathlib

/-!
Shallow embedding of the Dragon `Workspace` class
(`src/Dragon/include/core/workspace.h`) and proofs of the spec claims
about it.

The workspace's maps (`Map<string, ...>` from `core/common.h`, which is
not part of the provided sources) are embedded as insertion-ordered
association lists with unique keys, following the spec's statement that
remote search order is composition insertion order.  `std::stack` is
embedded as a `List` whose head is the stack top.  A glog-style
`CHECK`/`LOG(FATAL)` failure is embedded as `Option.none` (or
`Except.error`) on the operation's result.  A returned `Tensor*` is
embedded as `TensorPtr`: either the null pointer, or the identity of the
map slot it points to (owning workspace name plus storage key).
-/

set_option autoImplicit false

namespace Dragon

/-- Modelled from the spec: the tensor class (`core/tensor.h`, absent from
the provided sources) is an opaque named resource whose `Reset()` frees the
backing storage while the object and its name survive.  `resetCount`
records how many times the backing storage has been reset, which is the
observable side effect the spec uses to detect a full release. -/
structure Tensor where
  name : String
  resetCount : Nat
deriving DecidableEq, Repr

/-- `Tensor::Reset()`: releases backing storage, keeps the object alive. -/
def Tensor.Reset (t : Tensor) : Tensor :=
  { t with resetCount := t.resetCount + 1 }

/-- Modelled from the spec: `GraphBase` (`core/graph.h`, absent from the
provided sources) is an executable graph exposing
`Run(include, exclude) -> bool`; it is embedded as an arbitrary
boolean-valued function of the two filter strings. -/
structure Graph where
  run : String → String → Bool

/-- A `Tensor*` value handed out by the workspace: either the null pointer
or a pointer into the slot `key` of the tensor map of the workspace named
`owner`. -/
inductive TensorPtr where
  | null : TensorPtr
  | mk (owner : String) (key : String) : TensorPtr
deriving DecidableEq, Repr

/-- Lookup in an insertion-ordered association list (`Map::count`/`find`). -/
def assocLookup {α : Type} : List (String × α) → String → Option α
  | [], _ => none
  | (k, v) :: rest, q => if k = q then some v else assocLookup rest q

/-- `Map::count(k) > 0`. -/
def assocContains {α : Type} (m : List (String × α)) (q : String) : Bool :=
  (assocLookup m q).isSome

/-- `Map::operator[](k) = v`: replace the value of an existing key in
place, or append a fresh key at the end (insertion order). -/
def assocSet {α : Type} : List (String × α) → String → α → List (String × α)
  | [], q, v => [(q, v)]
  | (k, w) :: rest, q, v =>
      if k = q then (k, v) :: rest else (k, w) :: assocSet rest q v

/-- The whole workspace state: name, composed ("remote") workspaces,
tensor registry (a slot holds `none` when its `unique_ptr` is null),
buffer pools, graph registry and the alias table.  The lock and filler
maps of the source are omitted: no claim mentions them. -/
inductive Workspace where
  | mk (name : String)
       (workspace_map : List (String × Workspace))
       (tensor_map : List (String × Option Tensor))
       (buffer_map : List (String × List String))
       (graph_map : List (String × Graph))
       (rename_map : List (String × String))

def Workspace.name : Workspace → String
  | .mk n _ _ _ _ _ => n

def Workspace.workspace_map : Workspace → List (String × Workspace)
  | .mk _ w _ _ _ _ => w

def Workspace.tensor_map : Workspace → List (String × Option Tensor)
  | .mk _ _ t _ _ _ => t

def Workspace.buffer_map : Workspace → List (String × List String)
  | .mk _ _ _ b _ _ => b

def Workspace.graph_map : Workspace → List (String × Graph)
  | .mk _ _ _ _ g _ => g

def Workspace.rename_map : Workspace → List (String × String)
  | .mk _ _ _ _ _ r => r

def Workspace.setWorkspaceMap : Workspace → List (String × Workspace) → Workspace
  | .mk n _ t b g r, w => .mk n w t b g r

def Workspace.setTensorMap : Workspace → List (String × Option Tensor) → Workspace
  | .mk n w _ b g r, t => .mk n w t b g r

def Workspace.setBufferMap : Workspace → List (String × List String) → Workspace
  | .mk n w t _ g r, b => .mk n w t b g r

def Workspace.setGraphMap : Workspace → List (String × Graph) → Workspace
  | .mk n w t b _ r, g => .mk n w t b g r

def Workspace.setRenameMap : Workspace → List (String × String) → Workspace
  | .mk n w t b g _, r => .mk n w t b g r

/-- One resolution step through a rename table. -/
def resolveWith (rmap : List (String × String)) (n : String) : String :=
  (assocLookup rmap n).getD n

/-- `Workspace::GetTensorName`: single-hop alias resolution. -/
def Workspace.GetTensorName (ws : Workspace) (n : String) : String :=
  resolveWith ws.rename_map n

mutual

/-- `Workspace::HasTensor(name, use_remote)`: resolve once, check the local
registry, and (when `use_remote`) OR in every composed workspace's own
`HasTensor` of the resolved name. -/
def Workspace.HasTensor : Workspace → String → Bool → Bool
  | .mk _ wmap tmap _ _ rmap, n, use_remote =>
      let query := resolveWith rmap n
      let result := assocContains tmap query
      if use_remote then result || remoteHas wmap query else result

/-- The `for (auto& it : workspace_map_) result |= it.second->HasTensor(query)`
loop of `HasTensor`. -/
def remoteHas : List (String × Workspace) → String → Bool
  | [], _ => false
  | (_, w) :: rest, q => Workspace.HasTensor w q true || remoteHas rest q

end

/-- Dereference a tensor-map slot as `Tensor*` (`unique_ptr::get()`). -/
def slotPtr (owner key : String) : Option Tensor → TensorPtr
  | some _ => TensorPtr.mk owner key
  | none => TensorPtr.null

mutual

/-- `Workspace::GetTensor(name, use_remote)`: resolve once, return the local
slot's pointer when the key is present; otherwise, when `use_remote`,
delegate to the first composed workspace whose `HasTensor` succeeds
(insertion order); otherwise `LOG(FATAL)`, embedded as `Except.error`. -/
def Workspace.GetTensor : Workspace → String → Bool → Except Unit TensorPtr
  | .mk wn wmap tmap _ _ rmap, n, use_remote =>
      let query := resolveWith rmap n
      match assocLookup tmap query with
      | some slot => Except.ok (slotPtr wn query slot)
      | none =>
          if use_remote then remoteGet wmap query else Except.error ()

/-- The remote-search loop of `GetTensor`: first composed workspace whose
`HasTensor(query)` holds answers via its own `GetTensor(query)` (with the
default `use_remote = true`); an exhausted loop falls into `LOG(FATAL)`. -/
def remoteGet : List (String × Workspace) → String → Except Unit TensorPtr
  | [], _ => Except.error ()
  | (_, w) :: rest, q =>
      if w.HasTensor q true then w.GetTensor q true else remoteGet rest q

end

/-- `Workspace::CreateTensor(name)`: resolve once to `query`, then test
`HasTensor(query)` (which resolves a second time and searches remotely,
since `use_remote` defaults to true); allocate a fresh local tensor only
when that test fails.  The final `return tensor_map_[query].get()` is
`operator[]`, which default-inserts a null `unique_ptr` when `query` is
not a local key. -/
def Workspace.CreateTensor (ws : Workspace) (n : String) : Workspace × TensorPtr :=
  let query := ws.GetTensorName n
  if ws.HasTensor query true then
    match assocLookup ws.tensor_map query with
    | some slot => (ws, slotPtr ws.name query slot)
    | none => (ws.setTensorMap (ws.tensor_map ++ [(query, none)]), TensorPtr.null)
  else
    (ws.setTensorMap (assocSet ws.tensor_map query (some { name := query, resetCount := 0 })),
     TensorPtr.mk ws.name query)

/-- `Workspace::MoveWorkspace(ws)`: idempotent by name; returns the stored
workspace together with the updated parent. -/
def Workspace.MoveWorkspace (ws child : Workspace) : Workspace × Workspace :=
  match assocLookup ws.workspace_map child.name with
  | some w => (ws, w)
  | none => (ws.setWorkspaceMap (assocSet ws.workspace_map child.name child), child)

/-- `Workspace::ReleaseTensor(name)`: `CHECK(HasTensor(name, false))` — the
tensor must belong to the current workspace — then reset the slot's tensor
in place.  A null slot would be a null-pointer dereference; both failures
are embedded as `none`. -/
def Workspace.ReleaseTensor (ws : Workspace) (n : String) : Option Workspace :=
  if ws.HasTensor n false then
    let query := ws.GetTensorName n
    match assocLookup ws.tensor_map query with
    | some (some t) =>
        some (ws.setTensorMap (assocSet ws.tensor_map query (some t.Reset)))
    | _ => none
  else none

/-- `Workspace::CreateRename(old_tensor, new_tensor)`: unconditional
single-hop alias definition. -/
def Workspace.CreateRename (ws : Workspace) (old_tensor new_tensor : String) : Workspace :=
  ws.setRenameMap (assocSet ws.rename_map old_tensor new_tensor)

/-- Modelled from the spec: `dragon_cast<string, int>` (`utils/string.h`,
absent from the provided sources) is the decimal representation of the
index.  Buffer tensor names are `"_t_" + category + "_buffer_" + i`. -/
def bufferName (category : String) (i : Nat) : String :=
  "_t_" ++ category ++ "_buffer_" ++ Nat.repr i

/-- `buffer_map_[category]` read with `operator[]`: default-insert an empty
stack when the category is not yet a key. -/
def Workspace.ensureBuffer (ws : Workspace) (category : String) : Workspace :=
  match assocLookup ws.buffer_map category with
  | some _ => ws
  | none => ws.setBufferMap (ws.buffer_map ++ [(category, [])])

/-- The stack currently pooled under a category (empty when absent). -/
def stackOf (ws : Workspace) (category : String) : List String :=
  (assocLookup ws.buffer_map category).getD []

/-- `buffer_map_[category].push(name)`. -/
def Workspace.pushBuffer (ws : Workspace) (category n : String) : Workspace :=
  let ws1 := ws.ensureBuffer category
  ws1.setBufferMap (assocSet ws1.buffer_map category (n :: stackOf ws1 category))

/-- One iteration of the `CreateBuffer` loop body:
`buffer_map_[category].push(name); CreateTensor(name);`. -/
def createBufferStep (category : String) (w : Workspace) (i : Nat) : Workspace :=
  ((w.pushBuffer category (bufferName category i)).CreateTensor (bufferName category i)).1

/-- `Workspace::CreateBuffer(category, num)`:
`CHECK(!buffer_map_.count(category))`, then push and create the `num`
deterministically named tensors, for `i = 1 .. num`. -/
def Workspace.CreateBuffer (ws : Workspace) (category : String) (num : Nat) : Option Workspace :=
  if assocContains ws.buffer_map category then none
  else
    let ws1 := ws.setBufferMap (assocSet ws.buffer_map category [])
    some ((List.range' 1 num).foldl (createBufferStep category) ws1)

/-- `Workspace::GetBuffer(category)`: pop the top name when the stack is
nonempty and return `tensor_map_[name].get()` (an `operator[]` access,
which default-inserts a null slot for an unregistered name); an empty
stack is `LOG(FATAL)`.  The initial emptiness test itself uses
`buffer_map_[category]`, default-inserting an empty stack. -/
def Workspace.GetBuffer (ws : Workspace) (category : String) : Option (Workspace × TensorPtr) :=
  let ws1 := ws.ensureBuffer category
  match stackOf ws1 category with
  | [] => none
  | n :: rest =>
      let ws2 := ws1.setBufferMap (assocSet ws1.buffer_map category rest)
      match assocLookup ws2.tensor_map n with
      | some slot => some (ws2, slotPtr ws2.name n slot)
      | none => some (ws2.setTensorMap (ws2.tensor_map ++ [(n, none)]), TensorPtr.null)

/-- The function-local `static Map<string, int> limits` of
`Workspace::ReleaseBuffer`: only `"Common"` and `"Grad"` are keys, and the
`operator[]` read of any other category default-inserts the value `0`. -/
def bufferLimits (category : String) : Nat :=
  if category = "Common" then 2 else if category = "Grad" then 1 else 0

/-- `Workspace::ReleaseBuffer(tensor, category, enforce)`: when the stack is
already at or above the category's limit, or `enforce` is set, release the
tensor through `ReleaseTensor`; otherwise push its name back for reuse. -/
def Workspace.ReleaseBuffer (ws : Workspace) (t : Tensor) (category : String)
    (enforce : Bool) : Option Workspace :=
  let ws1 := ws.ensureBuffer category
  if bufferLimits category ≤ (stackOf ws1 category).length ∨ enforce = true then
    ws1.ReleaseTensor t.name
  else
    some (ws1.pushBuffer category t.name)

/-- Modelled from the spec: `Workspace::CreateGraph` is only declared in the
header (its body lives outside the provided sources); the reference
behavior is map assignment keyed by the definition's declared name, last
write wins. -/
def Workspace.CreateGraph (ws : Workspace) (n : String) (g : Graph) : Workspace :=
  ws.setGraphMap (assocSet ws.graph_map n g)

/-- `Workspace::RunGraph(graph_name, include, exclude)`: unknown names log
an error and return `false` (recoverable, no abort); otherwise delegate to
the stored graph's `Run` with the two filters. -/
def Workspace.RunGraph (ws : Workspace) (graph_name inc exc : String) : Bool :=
  match assocLookup ws.graph_map graph_name with
  | none => false
  | some g => g.run inc exc

/-- The `Workspace(name)` constructor followed by `init()`: seed the
`"ignore"` sentinel tensor and the `"Common"` (size 2) and `"Grad"`
(size 1) buffer categories.  On the empty state both `CreateBuffer` calls
provably succeed, so the `getD` fallbacks are never taken. -/
def Workspace.construct (wn : String) : Workspace :=
  let ws : Workspace := .mk wn [] [] [] [] []
  let ws := (ws.CreateTensor "ignore").1
  let ws := (ws.CreateBuffer "Common" 2).getD ws
  (ws.CreateBuffer "Grad" 1).getD ws

/-! ## Small structural lemmas -/

@[simp] lemma assocLookup_set_self {α : Type} (m : List (String × α)) (k : String) (v : α) :
    assocLookup (assocSet m k v) k = some v := by
  induction m with
  | nil => simp [assocSet, assocLookup]
  | cons p rest ih =>
      obtain ⟨k', v'⟩ := p
      by_cases h : k' = k
      · subst h; simp [assocSet, assocLookup]
      · simp [assocSet, assocLookup, h, ih]

@[simp] lemma assocLookup_set_ne {α : Type} (m : List (String × α)) (k q : String) (v : α)
    (h : q ≠ k) : assocLookup (assocSet m k v) q = assocLookup m q := by
  induction m with
  | nil => simp [assocSet, assocLookup, Ne.symm h]
  | cons p rest ih =>
      obtain ⟨k', v'⟩ := p
      by_cases hk : k' = k
      · subst hk
        simp [assocSet, assocLookup, Ne.symm h]
      · simp [assocSet, assocLookup, hk, ih]

lemma assocLookup_append_none {α : Type} (m l : List (String × α)) (q : String)
    (h : assocLookup m q = none) : assocLookup (m ++ l) q = assocLookup l q := by
  induction m with
  | nil => rfl
  | cons p rest ih =>
      obtain ⟨k, v⟩ := p
      by_cases hk : k = q
      · simp [assocLookup, hk] at h
      · simp only [assocLookup, hk, if_false, List.cons_append] at h ⊢
        exact ih h

lemma assocLookup_append_some {α : Type} (m l : List (String × α)) (q : String) (v : α)
    (h : assocLookup m q = some v) : assocLookup (m ++ l) q = some v := by
  induction m with
  | nil => exact Option.noConfusion h
  | cons p rest ih =>
      obtain ⟨k, w⟩ := p
      by_cases hk : k = q
      · simp only [assocLookup, hk, if_true, if_pos rfl] at h ⊢
        exact h
      · simp only [assocLookup, hk, if_false, List.cons_append] at h ⊢
        exact ih h

lemma assocContains_mono_set {α : Type} (m : List (String × α)) (k q : String) (v : α)
    (h : assocContains m q = true) : assocContains (assocSet m k v) q = true := by
  by_cases hk : q = k
  · subst hk; simp [assocContains]
  · rw [assocContains, assocLookup_set_ne m k q v hk]; exact h

lemma assocContains_append {α : Type} (m l : List (String × α)) (q : String)
    (h : assocContains m q = true) : assocContains (m ++ l) q = true := by
  rw [assocContains] at h ⊢
  cases hl : assocLookup m q with
  | none => rw [hl] at h; simp at h
  | some v => rw [assocLookup_append_some m l q v hl]; rfl

@[simp] lemma setTensorMap_name (ws : Workspace) (t : List (String × Option Tensor)) :
    (ws.setTensorMap t).name = ws.name := by cases ws; rfl

@[simp] lemma setTensorMap_workspace_map (ws : Workspace) (t : List (String × Option Tensor)) :
    (ws.setTensorMap t).workspace_map = ws.workspace_map := by cases ws; rfl

@[simp] lemma setTensorMap_tensor_map (ws : Workspace) (t : List (String × Option Tensor)) :
    (ws.setTensorMap t).tensor_map = t := by cases ws; rfl

@[simp] lemma setTensorMap_buffer_map (ws : Workspace) (t : List (String × Option Tensor)) :
    (ws.setTensorMap t).buffer_map = ws.buffer_map := by cases ws; rfl

@[simp] lemma setTensorMap_graph_map (ws : Workspace) (t : List (String × Option Tensor)) :
    (ws.setTensorMap t).graph_map = ws.graph_map := by cases ws; rfl

@[simp] lemma setTensorMap_rename_map (ws : Workspace) (t : List (String × Option Tensor)) :
    (ws.setTensorMap t).rename_map = ws.rename_map := by cases ws; rfl

@[simp] lemma setBufferMap_name (ws : Workspace) (b : List (String × List String)) :
    (ws.setBufferMap b).name = ws.name := by cases ws; rfl

@[simp] lemma setBufferMap_workspace_map (ws : Workspace) (b : List (String × List String)) :
    (ws.setBufferMap b).workspace_map = ws.workspace_map := by cases ws; rfl

@[simp] lemma setBufferMap_tensor_map (ws : Workspace) (b : List (String × List String)) :
    (ws.setBufferMap b).tensor_map = ws.tensor_map := by cases ws; rfl

@[simp] lemma setBufferMap_buffer_map (ws : Workspace) (b : List (String × List String)) :
    (ws.setBufferMap b).buffer_map = b := by cases ws; rfl

@[simp] lemma setBufferMap_graph_map (ws : Workspace) (b : List (String × List String)) :
    (ws.setBufferMap b).graph_map = ws.graph_map := by cases ws; rfl

@[simp] lemma setBufferMap_rename_map (ws : Workspace) (b : List (String × List String)) :
    (ws.setBufferMap b).rename_map = ws.rename_map := by cases ws; rfl

@[simp] lemma ensureBuffer_name (ws : Workspace) (C : String) :
    (ws.ensureBuffer C).name = ws.name := by
  rw [Workspace.ensureBuffer]
  cases assocLookup ws.buffer_map C <;> simp

@[simp] lemma ensureBuffer_tensor_map (ws : Workspace) (C : String) :
    (ws.ensureBuffer C).tensor_map = ws.tensor_map := by
  rw [Workspace.ensureBuffer]
  cases assocLookup ws.buffer_map C <;> simp

@[simp] lemma ensureBuffer_workspace_map (ws : Workspace) (C : String) :
    (ws.ensureBuffer C).workspace_map = ws.workspace_map := by
  rw [Workspace.ensureBuffer]
  cases assocLookup ws.buffer_map C <;> simp

@[simp] lemma ensureBuffer_rename_map (ws : Workspace) (C : String) :
    (ws.ensureBuffer C).rename_map = ws.rename_map := by
  rw [Workspace.ensureBuffer]
  cases assocLookup ws.buffer_map C <;> simp

lemma ensureBuffer_lookup (ws : Workspace) (C : String) :
    assocLookup (ws.ensureBuffer C).buffer_map C = some (stackOf ws C) := by
  rw [Workspace.ensureBuffer, stackOf]
  cases h : assocLookup ws.buffer_map C with
  | some s => simp [h]
  | none => simp [h, assocLookup_append_none ws.buffer_map _ C h, assocLookup]

lemma stackOf_ensure (ws : Workspace) (C : String) :
    stackOf (ws.ensureBuffer C) C = stackOf ws C := by
  rw [stackOf, ensureBuffer_lookup]; rfl

/-! ## Concrete states used by the claims -/

/-- A workspace `"B"` that locally owns a tensor `"x"`. -/
def wsB : Workspace := ((Workspace.construct "B").CreateTensor "x").1

/-- A workspace `"A"` with no local `"x"`, composed with `wsB`. -/
def wsA : Workspace := ((Workspace.construct "A").MoveWorkspace wsB).1

/-- A workspace with the alias chain `old → mid → final` and a local tensor
stored under `"final"`. -/
def wsC3 : Workspace :=
  ((((Workspace.construct "W").CreateRename "old" "mid").CreateRename
      "mid" "final").CreateTensor "final").1

/-- The same alias chain `old → mid → final`, but with no `"final"` tensor. -/
def wsC3b : Workspace :=
  (((Workspace.construct "W").CreateRename "old" "mid").CreateRename "mid" "final")

/-- The workspace-owned tensor sitting in the `"Common"` pool slot 1. -/
def tCb1 : Tensor := { name := "_t_Common_buffer_1", resetCount := 0 }

/-- The workspace-owned tensor sitting in the `"Common"` pool slot 2. -/
def tCb2 : Tensor := { name := "_t_Common_buffer_2", resetCount := 0 }

/-- A user tensor named `"x"`. -/
def tX : Tensor := { name := "x", resetCount := 0 }

/-- A fresh workspace `"W"`. -/
def c4w0 : Workspace := Workspace.construct "W"

/-- `c4w0` after acquiring one `"Common"` buffer. -/
def c4w1 : Workspace := ((c4w0.GetBuffer "Common").map Prod.fst).getD c4w0

/-- `c4w1` after acquiring the second `"Common"` buffer. -/
def c4w2 : Workspace := ((c4w1.GetBuffer "Common").map Prod.fst).getD c4w1

/-- `c4w2` after creating the tensor `"x"`. -/
def c4w2x : Workspace := (c4w2.CreateTensor "x").1

/-- `c4w2x` after releasing the first acquired buffer back (no force). -/
def c4w3 : Workspace := (c4w2x.ReleaseBuffer tCb2 "Common" false).getD c4w2x

/-- `c4w3` after releasing the second acquired buffer back (no force). -/
def c4w4 : Workspace := (c4w3.ReleaseBuffer tCb1 "Common" false).getD c4w3

/-- `c4w4` after a third no-force release, with the pool at capacity. -/
def c4w5 : Workspace := (c4w4.ReleaseBuffer tX "Common" false).getD c4w4

/-- A fresh workspace `"W"` owning a user tensor `"w1"`. -/
def c8ws : Workspace := ((Workspace.construct "W").CreateTensor "w1").1

/-- C1: the claim states that `create_tensor(n)` never searches remote
workspaces — when no local entry exists under the resolved name, a new
tensor is allocated locally and its handle returned even when a composed
remote workspace owns the same resolved name.  The code violates this:
`CreateTensor` probes existence with `HasTensor(query)` whose `use_remote`
argument defaults to true, so with workspace `"A"` composed with `"B"`
owning `"x"` and no local `"x"`, `A.CreateTensor "x"` skips the local
allocation, default-inserts a null slot under `"x"` via `operator[]`, and
returns the null pointer instead of a handle to a fresh local tensor. -/
theorem c1_createTensor_searches_remote_bug :
    Workspace.HasTensor wsA "x" false = false ∧
    Workspace.HasTensor wsB "x" false = true ∧
    (wsA.CreateTensor "x").2 = TensorPtr.null ∧
    assocLookup (wsA.CreateTensor "x").1.tensor_map "x" = some none ∧
    Workspace.HasTensor (wsA.CreateTensor "x").1 "x" false = true := by
  decide

/-! ## Remote search order -/

/-- The first composed workspace, in insertion order, whose `HasTensor`
succeeds on the query. -/
def firstRemoteMatch : List (String × Workspace) → String → Option Workspace
  | [], _ => none
  | (_, w) :: rest, q =>
      if w.HasTensor q true then some w else firstRemoteMatch rest q

lemma remoteGet_of_remoteHas_false (l : List (String × Workspace)) (q : String)
    (h : remoteHas l q = false) : remoteGet l q = Except.error () := by
  induction l with
  | nil => rfl
  | cons p rest ih =>
      obtain ⟨k, w⟩ := p
      rw [remoteHas, Bool.or_eq_false_iff] at h
      rw [remoteGet, if_neg (by simp [h.1]), ih h.2]

lemma remoteGet_of_firstRemoteMatch (l : List (String × Workspace)) (q : String)
    (w : Workspace) (h : firstRemoteMatch l q = some w) :
    remoteGet l q = w.GetTensor q true := by
  induction l with
  | nil => exact absurd h (by simp [firstRemoteMatch])
  | cons p rest ih =>
      obtain ⟨k, w'⟩ := p
      cases hw : w'.HasTensor q true with
      | true =>
          rw [firstRemoteMatch, if_pos hw] at h
          cases h
          rw [remoteGet, if_pos hw]
      | false =>
          rw [firstRemoteMatch, if_neg (by simp [hw])] at h
          rw [remoteGet, if_neg (by simp [hw])]
          exact ih h

lemma getTensor_local (ws : Workspace) (n : String) (slot : Option Tensor)
    (h : assocLookup ws.tensor_map (ws.GetTensorName n) = some slot) :
    ws.GetTensor n true = Except.ok (slotPtr ws.name (ws.GetTensorName n) slot) := by
  obtain ⟨wn, wmap, tmap, bmap, gmap, rmap⟩ := ws
  simp only [Workspace.tensor_map, Workspace.GetTensorName, Workspace.rename_map] at h
  simp only [Workspace.GetTensor, Workspace.name, Workspace.GetTensorName,
    Workspace.rename_map, h]

lemma getTensor_remote (ws : Workspace) (n : String) (w : Workspace)
    (h : assocLookup ws.tensor_map (ws.GetTensorName n) = none)
    (hm : firstRemoteMatch ws.workspace_map (ws.GetTensorName n) = some w) :
    ws.GetTensor n true = w.GetTensor (ws.GetTensorName n) true := by
  obtain ⟨wn, wmap, tmap, bmap, gmap, rmap⟩ := ws
  simp only [Workspace.tensor_map, Workspace.GetTensorName, Workspace.rename_map] at h
  simp only [Workspace.workspace_map, Workspace.GetTensorName,
    Workspace.rename_map] at hm
  simp only [Workspace.GetTensor, h, if_true, Workspace.GetTensorName,
    Workspace.rename_map]
  exact remoteGet_of_firstRemoteMatch _ _ _ hm

lemma getTensor_fatal (ws : Workspace) (n : String)
    (h : ws.HasTensor n true = false) : ws.GetTensor n true = Except.error () := by
  obtain ⟨wn, wmap, tmap, bmap, gmap, rmap⟩ := ws
  simp only [Workspace.HasTensor, if_true, Bool.or_eq_false_iff] at h
  cases hl : assocLookup tmap (resolveWith rmap n) with
  | some v => rw [assocContains, hl] at h; exact absurd h.1 (by simp)
  | none => simp only [Workspace.GetTensor, hl]
            exact remoteGet_of_remoteHas_false _ _ h.2

/-- C2: for every workspace and name `n`, `get_tensor(n, remote := true)`
returns the local slot's handle when the resolved name is a local key;
otherwise it searches the composed workspaces in composition insertion
order, the first match winning and answering through its own local-plus-
remote `GetTensor`; and when `HasTensor(n, remote := true)` finds nothing
anywhere, the call is fatal (`Except.error`), never a silently returned
null handle.  Concretely, workspace `"A"` with no local `"x"`, composed
with `"B"` owning `"x"`, resolves `A.GetTensor "x"` to the very handle
`B.GetTensor "x"` returns. -/
theorem c2_getTensor_hierarchical (ws w : Workspace) (n : String) (slot : Option Tensor) :
    (assocLookup ws.tensor_map (ws.GetTensorName n) = some slot →
      ws.GetTensor n true = Except.ok (slotPtr ws.name (ws.GetTensorName n) slot)) ∧
    (assocLookup ws.tensor_map (ws.GetTensorName n) = none →
      firstRemoteMatch ws.workspace_map (ws.GetTensorName n) = some w →
      ws.GetTensor n true = w.GetTensor (ws.GetTensorName n) true) ∧
    (ws.HasTensor n true = false → ws.GetTensor n true = Except.error ()) ∧
    (wsA.GetTensor "x" true = wsB.GetTensor "x" true ∧
      wsB.GetTensor "x" true = Except.ok (TensorPtr.mk "B" "x")) :=
  ⟨getTensor_local ws n slot, getTensor_remote ws n w, getTensor_fatal ws n,
    rfl, rfl⟩

/-- Witness for C2: each hypothesis of `c2_getTensor_hierarchical` is
satisfiable — a local hit in `wsB`, a remote first-match from `wsA` into
`wsB`, and a global miss that is fatal. -/
theorem c2_getTensor_hierarchical_witness :
    (assocLookup wsB.tensor_map (wsB.GetTensorName "x") =
        some (some { name := "x", resetCount := 0 }) ∧
      wsB.GetTensor "x" true = Except.ok (TensorPtr.mk "B" "x")) ∧
    (assocLookup wsA.tensor_map (wsA.GetTensorName "x") = none ∧
      firstRemoteMatch wsA.workspace_map (wsA.GetTensorName "x") = some wsB ∧
      wsA.GetTensor "x" true = wsB.GetTensor "x" true) ∧
    (wsA.HasTensor "nothing" true = false ∧
      wsA.GetTensor "nothing" true = Except.error ()) :=
  ⟨⟨rfl, (c2_getTensor_hierarchical wsB wsB "x"
      (some { name := "x", resetCount := 0 })).1 rfl⟩,
   ⟨rfl, rfl, (c2_getTensor_hierarchical wsA wsB "x" none).2.1 rfl rfl⟩,
   ⟨by decide, (c2_getTensor_hierarchical wsA wsB "nothing" none).2.2.1 (by decide)⟩⟩

/-- C3: the claim states that with aliases `old→mid` and `mid→final`, every
public operation on `old` acts on `mid` and never on `final`, resolving
exactly once.  The code violates this in `CreateTensor`: it resolves
`old` to `mid`, but then probes existence with `HasTensor(mid)`, which
resolves a second hop to `final`.  With a local tensor stored under
`"final"` (and none under `"mid"`), `CreateTensor "old"` therefore skips
the allocation and returns a null pointer, leaving a null slot under
`"mid"`; without the `"final"` tensor the very same call creates and
returns a real tensor under `"mid"`. -/
theorem c3_alias_double_resolution_bug :
    wsC3.GetTensorName "old" = "mid" ∧
    wsC3.GetTensorName "mid" = "final" ∧
    assocContains wsC3.tensor_map "final" = true ∧
    assocContains wsC3.tensor_map "mid" = false ∧
    (wsC3.CreateTensor "old").2 = TensorPtr.null ∧
    assocLookup (wsC3.CreateTensor "old").1.tensor_map "mid" = some none ∧
    wsC3b.rename_map = wsC3.rename_map ∧
    (wsC3b.CreateTensor "old").2 = TensorPtr.mk "W" "mid" ∧
    assocLookup (wsC3b.CreateTensor "old").1.tensor_map "mid" =
      some (some { name := "mid", resetCount := 0 }) := by
  decide

/-! ## Release and buffer-policy lemmas -/

lemma hasTensor_local (ws : Workspace) (n : String) :
    ws.HasTensor n false = assocContains ws.tensor_map (ws.GetTensorName n) := by
  obtain ⟨wn, wmap, tmap, bmap, gmap, rmap⟩ := ws
  simp [Workspace.HasTensor, Workspace.GetTensorName, Workspace.tensor_map,
    Workspace.rename_map]

lemma releaseTensor_fields (ws ws' : Workspace) (n : String)
    (h : ws.ReleaseTensor n = some ws') :
    ws'.buffer_map = ws.buffer_map ∧ ws'.name = ws.name ∧
      ws'.rename_map = ws.rename_map ∧ ws'.workspace_map = ws.workspace_map := by
  simp only [Workspace.ReleaseTensor] at h
  split at h
  · split at h
    · cases h; simp
    · exact Option.noConfusion h
  · exact Option.noConfusion h

lemma releaseTensor_some (ws : Workspace) (n : String) (t : Tensor)
    (h : assocLookup ws.tensor_map (ws.GetTensorName n) = some (some t)) :
    ws.ReleaseTensor n =
      some (ws.setTensorMap (assocSet ws.tensor_map (ws.GetTensorName n) (some t.Reset))) := by
  have hc : ws.HasTensor n false = true := by
    rw [hasTensor_local, assocContains, h]; rfl
  simp only [Workspace.ReleaseTensor, hc, if_true, h]

/-- C8: `release_tensor(name)` is fatal unless the tensor exists in the
local workspace (remote existence does not suffice, since the check is
`HasTensor(name, false)`); on success the slot's tensor has its backing
storage reset while the registry entry and name binding stay alive, so the
tensor still exists locally afterwards.  Concretely on workspace `"W"`
with `create_tensor("w1")`: releasing `"w1"` succeeds and bumps its reset
count in place, while releasing the never-created `"w2"` fails. -/
theorem c8_releaseTensor_local_reset (ws : Workspace) (n : String) (t : Tensor) :
    (ws.HasTensor n false = false → ws.ReleaseTensor n = none) ∧
    (assocLookup ws.tensor_map (ws.GetTensorName n) = some (some t) →
      (ws.ReleaseTensor n).map (fun w => assocLookup w.tensor_map (ws.GetTensorName n)) =
        some (some (some t.Reset)) ∧
      (ws.ReleaseTensor n).map (fun w => w.HasTensor n false) = some true) ∧
    ((c8ws.ReleaseTensor "w1").isSome = true ∧
      (c8ws.ReleaseTensor "w1").map (fun w => assocLookup w.tensor_map "w1") =
        some (some (some { name := "w1", resetCount := 1 })) ∧
      (c8ws.ReleaseTensor "w1").map (fun w => Workspace.HasTensor w "w1" false) = some true ∧
      Workspace.HasTensor c8ws "w2" false = false ∧
      (c8ws.ReleaseTensor "w2").isNone = true) := by
  refine ⟨fun h => ?_, fun h => ?_, by decide⟩
  · simp only [Workspace.ReleaseTensor, h, Bool.false_eq_true, if_false]
  · rw [releaseTensor_some ws n t h]
    constructor
    · simp only [Option.map_some', setTensorMap_tensor_map]
      rw [assocLookup_set_self]
    · simp only [Option.map_some']
      rw [hasTensor_local]
      rw [show (ws.setTensorMap
            (assocSet ws.tensor_map (ws.GetTensorName n) (some t.Reset))).GetTensorName n =
          ws.GetTensorName n by
        rw [Workspace.GetTensorName, Workspace.GetTensorName, setTensorMap_rename_map]]
      simp only [setTensorMap_tensor_map, assocContains, assocLookup_set_self,
        Option.isSome_some]

/-- Witness for C8: both hypotheses of `c8_releaseTensor_local_reset` are
satisfiable on `c8ws` — `"w9"` is not local (fatal), `"w1"` is local and
gets reset in place. -/
theorem c8_releaseTensor_local_reset_witness :
    (Workspace.HasTensor c8ws "w9" false = false ∧ c8ws.ReleaseTensor "w9" = none) ∧
    (assocLookup c8ws.tensor_map (c8ws.GetTensorName "w1") =
        some (some { name := "w1", resetCount := 0 }) ∧
      (c8ws.ReleaseTensor "w1").map (fun w => assocLookup w.tensor_map (c8ws.GetTensorName "w1")) =
        some (some (some (Tensor.Reset { name := "w1", resetCount := 0 })))) :=
  ⟨⟨by decide, (c8_releaseTensor_local_reset c8ws "w9"
      { name := "w1", resetCount := 0 }).1 (by decide)⟩,
   ⟨rfl, ((c8_releaseTensor_local_reset c8ws "w1"
      { name := "w1", resetCount := 0 }).2.1 rfl).1⟩⟩

/-- C4: `release_buffer(handle, C, force)` fully releases the tensor
through the tensor-release path when the stack of `C` is at or above the
category's capacity or `force` is set, and otherwise pushes the tensor's
name back onto `C`'s stack.  Concretely on the capacity-2 `"Common"`
category of a fresh workspace: acquiring 2 and releasing 2 without force
leaves exactly the 2 names pooled, and a further release with the pool at
capacity goes through `ReleaseTensor` (the `"x"` tensor's reset count
becomes 1) instead of being pooled. -/
theorem c4_releaseBuffer_policy (ws : Workspace) (t : Tensor) (C : String) (enforce : Bool) :
    (bufferLimits C ≤ (stackOf ws C).length ∨ enforce = true →
      ws.ReleaseBuffer t C enforce = (ws.ensureBuffer C).ReleaseTensor t.name) ∧
    ((stackOf ws C).length < bufferLimits C → enforce = false →
      ws.ReleaseBuffer t C enforce = some ((ws.ensureBuffer C).pushBuffer C t.name)) ∧
    ((c4w0.GetBuffer "Common").isSome = true ∧
      (c4w1.GetBuffer "Common").isSome = true ∧
      stackOf c4w2x "Common" = [] ∧
      (c4w2x.ReleaseBuffer tCb2 "Common" false).isSome = true ∧
      (c4w3.ReleaseBuffer tCb1 "Common" false).isSome = true ∧
      stackOf c4w4 "Common" = ["_t_Common_buffer_1", "_t_Common_buffer_2"] ∧
      (c4w4.ReleaseBuffer tX "Common" false).isSome = true ∧
      stackOf c4w5 "Common" = ["_t_Common_buffer_1", "_t_Common_buffer_2"] ∧
      assocLookup c4w5.tensor_map "x" = some (some { name := "x", resetCount := 1 })) := by
  refine ⟨fun h => ?_, fun h1 h2 => ?_, by decide⟩
  · have hcond : bufferLimits C ≤ (stackOf (ws.ensureBuffer C) C).length ∨ enforce = true := by
      rw [stackOf_ensure]; exact h
    simp only [Workspace.ReleaseBuffer, if_pos hcond]
  · have hcond : ¬(bufferLimits C ≤ (stackOf (ws.ensureBuffer C) C).length ∨ enforce = true) := by
      rw [stackOf_ensure, h2]
      rintro (hle | hfalse)
      · exact absurd h1 (Nat.not_lt.mpr hle)
      · exact Bool.noConfusion hfalse
    simp only [Workspace.ReleaseBuffer, if_neg hcond]

/-- Witness for C4: both branch hypotheses of `c4_releaseBuffer_policy` are
satisfiable — an unknown category (limit 0) releases, and `"Common"` with
one free slot pools. -/
theorem c4_releaseBuffer_policy_witness :
    (bufferLimits "Scratch" ≤ (stackOf c4w0 "Scratch").length ∨ false = true) ∧
    c4w0.ReleaseBuffer tX "Scratch" false = (c4w0.ensureBuffer "Scratch").ReleaseTensor "x" ∧
    (stackOf c4w1 "Common").length < bufferLimits "Common" ∧
    c4w1.ReleaseBuffer tCb2 "Common" false =
      some ((c4w1.ensureBuffer "Common").pushBuffer "Common" "_t_Common_buffer_2") :=
  ⟨Or.inl (by decide),
   (c4_releaseBuffer_policy c4w0 tX "Scratch" false).1 (Or.inl (by decide)),
   by decide,
   (c4_releaseBuffer_policy c4w1 tCb2 "Common" false).2.1 (by decide) rfl⟩

/-- C7: `acquire_buffer(C)` pops the top name of `C`'s stack and returns
that tensor's handle; an empty stack is fatal (`none`), never a silently
returned null handle.  Concretely, a fresh workspace fatally fails on the
unknown category `"Nope"` and pops `"_t_Common_buffer_2"` from
`"Common"`. -/
theorem c7_getBuffer_pop_or_fatal (ws : Workspace) (C n : String) (rest : List String)
    (t : Tensor) :
    (stackOf ws C = [] → ws.GetBuffer C = none) ∧
    (stackOf ws C = n :: rest → assocLookup ws.tensor_map n = some (some t) →
      (ws.GetBuffer C).map Prod.snd = some (TensorPtr.mk ws.name n) ∧
      (ws.GetBuffer C).map (fun p => stackOf p.1 C) = some rest) ∧
    (((Workspace.construct "W").GetBuffer "Nope").isNone = true ∧
      ((Workspace.construct "W").GetBuffer "Common").map Prod.snd =
        some (TensorPtr.mk "W" "_t_Common_buffer_2")) := by
  refine ⟨fun h => ?_, fun h1 h2 => ?_, by decide⟩
  · have h' : stackOf (ws.ensureBuffer C) C = [] := by rw [stackOf_ensure]; exact h
    simp only [Workspace.GetBuffer, h']
  · have h' : stackOf (ws.ensureBuffer C) C = n :: rest := by rw [stackOf_ensure]; exact h1
    have h2' : assocLookup ((ws.ensureBuffer C).setBufferMap
        (assocSet (ws.ensureBuffer C).buffer_map C rest)).tensor_map n = some (some t) := by
      rw [setBufferMap_tensor_map, ensureBuffer_tensor_map]; exact h2
    simp only [Workspace.GetBuffer, h', h2', Option.map_some']
    constructor
    · simp [slotPtr]
    · simp [stackOf]

/-- Witness for C7: both hypotheses of `c7_getBuffer_pop_or_fatal` are
satisfiable — unknown category `"Nope"` has an empty stack (fatal), and
`"Common"` on the fresh workspace pops its top buffer name. -/
theorem c7_getBuffer_pop_or_fatal_witness :
    (stackOf c4w0 "Nope" = [] ∧ c4w0.GetBuffer "Nope" = none) ∧
    (stackOf c4w0 "Common" = ["_t_Common_buffer_2", "_t_Common_buffer_1"] ∧
      assocLookup c4w0.tensor_map "_t_Common_buffer_2" = some (some tCb2) ∧
      (c4w0.GetBuffer "Common").map Prod.snd = some (TensorPtr.mk "W" "_t_Common_buffer_2")) :=
  ⟨⟨rfl, (c7_getBuffer_pop_or_fatal c4w0 "Nope" "z" [] tCb2).1 rfl⟩,
   ⟨rfl, rfl,
    ((c7_getBuffer_pop_or_fatal c4w0 "Common" "_t_Common_buffer_2"
        ["_t_Common_buffer_1"] tCb2).2.1 rfl rfl).1⟩⟩

/-- C9: `run_graph(name, include, exclude)` with a name not present in the
graph registry returns `false` (a recoverable failure — the embedding's
total `Bool` return, with no fatal case, reflects that the code logs and
returns rather than aborting or throwing); for a stored graph it
delegates to the graph's `Run` with the two filter strings and returns
that run's success flag. -/
theorem c9_runGraph_recoverable (ws : Workspace) (gname inc exc : String) (g : Graph) :
    (assocContains ws.graph_map gname = false → ws.RunGraph gname inc exc = false) ∧
    (assocLookup ws.graph_map gname = some g → ws.RunGraph gname inc exc = g.run inc exc) := by
  refine ⟨fun h => ?_, fun h => ?_⟩
  · cases hl : assocLookup ws.graph_map gname with
    | none => simp only [Workspace.RunGraph, hl]
    | some g' => rw [assocContains, hl] at h; exact Bool.noConfusion h
  · simp only [Workspace.RunGraph, h]

/-- A sample executable graph for the C9 witness. -/
def demoGraph : Graph := { run := fun inc _ => inc == "train" }

/-- A workspace holding `demoGraph` under the name `"g"`. -/
def wsG : Workspace := (Workspace.construct "W").CreateGraph "g" demoGraph

/-- Witness for C9: both hypotheses of `c9_runGraph_recoverable` are
satisfiable on `wsG` — the unknown `"nope"` returns false, the stored
`"g"` delegates to `demoGraph.run`. -/
theorem c9_runGraph_recoverable_witness :
    (assocContains wsG.graph_map "nope" = false ∧ wsG.RunGraph "nope" "i" "e" = false) ∧
    (assocLookup wsG.graph_map "g" = some demoGraph ∧
      wsG.RunGraph "g" "train" "e" = demoGraph.run "train" "e") :=
  ⟨⟨rfl, (c9_runGraph_recoverable wsG "nope" "i" "e" demoGraph).1 rfl⟩,
   ⟨rfl, (c9_runGraph_recoverable wsG "g" "train" "e" demoGraph).2 rfl⟩⟩

/-- C10: for every buffer category other than `"Common"` and `"Grad"`, the
static limits table defaults the capacity to 0, so the current stack size
is always at or above it: `release_buffer` with `force = false` always
takes the full-release path through `ReleaseTensor` and never pushes the
tensor's name back onto the category's stack — user-created categories
never recycle buffers. -/
theorem c10_custom_categories_never_recycle (ws ws' : Workspace) (t : Tensor) (C : String)
    (hc : C ≠ "Common") (hg : C ≠ "Grad") :
    ws.ReleaseBuffer t C false = (ws.ensureBuffer C).ReleaseTensor t.name ∧
    (ws.ReleaseBuffer t C false = some ws' →
      assocLookup ws'.buffer_map C = some (stackOf ws C)) := by
  have hlim : bufferLimits C = 0 := by rw [bufferLimits, if_neg hc, if_neg hg]
  have h1 : ws.ReleaseBuffer t C false = (ws.ensureBuffer C).ReleaseTensor t.name := by
    have hcond : bufferLimits C ≤ (stackOf (ws.ensureBuffer C) C).length ∨ false = true :=
      Or.inl (by rw [hlim]; exact Nat.zero_le _)
    simp only [Workspace.ReleaseBuffer, if_pos hcond]
  refine ⟨h1, fun h2 => ?_⟩
  rw [h1] at h2
  rw [(releaseTensor_fields _ _ _ h2).1, ensureBuffer_lookup]

/-- Witness for C10: the hypotheses of `c10_custom_categories_never_recycle`
are satisfiable at the user category `"Scratch"`, whose release of the
locally owned `"ignore"` tensor takes the release path, pooling nothing. -/
theorem c10_custom_categories_never_recycle_witness :
    ("Scratch" ≠ "Common") ∧ ("Scratch" ≠ "Grad") ∧
    c4w0.ReleaseBuffer { name := "ignore", resetCount := 0 } "Scratch" false =
      (c4w0.ensureBuffer "Scratch").ReleaseTensor "ignore" ∧
    ((c4w0.ReleaseBuffer { name := "ignore", resetCount := 0 } "Scratch" false).map
        (fun w => assocLookup w.buffer_map "Scratch")) = some (some []) :=
  ⟨by decide, by decide,
   (c10_custom_categories_never_recycle c4w0 c4w0 { name := "ignore", resetCount := 0 }
      "Scratch" (by decide) (by decide)).1,
   by
    cases hrel : c4w0.ReleaseBuffer { name := "ignore", resetCount := 0 } "Scratch" false with
    | none =>
        exact absurd (show (c4w0.ReleaseBuffer { name := "ignore", resetCount := 0 }
            "Scratch" false).isNone = true by rw [hrel]; rfl) (by decide)
    | some w =>
        rw [Option.map_some']
        rw [(c10_custom_categories_never_recycle c4w0 w { name := "ignore", resetCount := 0 }
          "Scratch" (by decide) (by decide)).2 hrel]
        rfl⟩

/-! ## CreateBuffer loop lemmas -/

lemma createTensor_buffer_map (ws : Workspace) (n : String) :
    ((ws.CreateTensor n).1).buffer_map = ws.buffer_map := by
  simp only [Workspace.CreateTensor]
  split
  · split <;> simp
  · simp

lemma createTensor_rename_map (ws : Workspace) (n : String) :
    ((ws.CreateTensor n).1).rename_map = ws.rename_map := by
  simp only [Workspace.CreateTensor]
  split
  · split <;> simp
  · simp

lemma createTensor_workspace_map (ws : Workspace) (n : String) :
    ((ws.CreateTensor n).1).workspace_map = ws.workspace_map := by
  simp only [Workspace.CreateTensor]
  split
  · split <;> simp
  · simp

lemma createTensor_name (ws : Workspace) (n : String) :
    ((ws.CreateTensor n).1).name = ws.name := by
  simp only [Workspace.CreateTensor]
  split
  · split <;> simp
  · simp

lemma pushBuffer_tensor_map (ws : Workspace) (C n : String) :
    (ws.pushBuffer C n).tensor_map = ws.tensor_map := by
  simp only [Workspace.pushBuffer, setBufferMap_tensor_map, ensureBuffer_tensor_map]

lemma pushBuffer_rename_map (ws : Workspace) (C n : String) :
    (ws.pushBuffer C n).rename_map = ws.rename_map := by
  simp only [Workspace.pushBuffer, setBufferMap_rename_map, ensureBuffer_rename_map]

lemma pushBuffer_workspace_map (ws : Workspace) (C n : String) :
    (ws.pushBuffer C n).workspace_map = ws.workspace_map := by
  simp only [Workspace.pushBuffer, setBufferMap_workspace_map, ensureBuffer_workspace_map]

lemma pushBuffer_name (ws : Workspace) (C n : String) :
    (ws.pushBuffer C n).name = ws.name := by
  simp only [Workspace.pushBuffer, setBufferMap_name, ensureBuffer_name]

lemma stackOf_pushBuffer (ws : Workspace) (C n : String) :
    stackOf (ws.pushBuffer C n) C = n :: stackOf ws C := by
  simp only [Workspace.pushBuffer, stackOf, setBufferMap_buffer_map, assocLookup_set_self,
    Option.getD_some]
  rw [← stackOf, ← stackOf, stackOf_ensure]

lemma createTensor_contains_self (ws : Workspace) (n : String) (hr : ws.rename_map = []) :
    assocContains ((ws.CreateTensor n).1).tensor_map n = true := by
  have hq : ws.GetTensorName n = n := by
    rw [Workspace.GetTensorName, hr]; rfl
  simp only [Workspace.CreateTensor, hq]
  split
  · cases hl : assocLookup ws.tensor_map n with
    | some s => simp [assocContains, hl]
    | none =>
        simp [assocContains, assocLookup_append_none _ _ _ hl, assocLookup]
  · simp [assocContains]

lemma createTensor_tensor_mono (ws : Workspace) (n x : String)
    (h : assocContains ws.tensor_map x = true) :
    assocContains ((ws.CreateTensor n).1).tensor_map x = true := by
  simp only [Workspace.CreateTensor]
  split
  · cases hl : assocLookup ws.tensor_map (ws.GetTensorName n) with
    | some s => exact h
    | none =>
        rw [setTensorMap_tensor_map]
        exact assocContains_append _ _ _ h
  · rw [setTensorMap_tensor_map]
    exact assocContains_mono_set _ _ _ _ h

lemma createBufferStep_stack (w : Workspace) (C : String) (i : Nat) :
    stackOf (createBufferStep C w i) C = bufferName C i :: stackOf w C := by
  rw [createBufferStep, stackOf, createTensor_buffer_map, ← stackOf, stackOf_pushBuffer]

lemma createBufferStep_rename (w : Workspace) (C : String) (i : Nat) :
    (createBufferStep C w i).rename_map = w.rename_map := by
  rw [createBufferStep, createTensor_rename_map, pushBuffer_rename_map]

lemma loop_stack (L : List Nat) (C : String) (ws : Workspace) :
    stackOf (L.foldl (createBufferStep C) ws) C =
      (L.reverse.map (bufferName C)) ++ stackOf ws C := by
  induction L generalizing ws with
  | nil => simp
  | cons i L' ih =>
      rw [List.foldl_cons, ih, createBufferStep_stack]
      simp

lemma loop_mono (L : List Nat) (C x : String) :
    ∀ ws : Workspace, assocContains ws.tensor_map x = true →
      assocContains ((L.foldl (createBufferStep C) ws)).tensor_map x = true := by
  induction L with
  | nil => intro ws h; exact h
  | cons i L' ih =>
      intro ws h
      rw [List.foldl_cons]
      refine ih _ ?_
      rw [createBufferStep]
      refine createTensor_tensor_mono _ _ _ ?_
      rw [pushBuffer_tensor_map]
      exact h

lemma loop_names (L : List Nat) (C : String) :
    ∀ ws : Workspace, ws.rename_map = [] → ∀ i ∈ L,
      assocContains ((L.foldl (createBufferStep C) ws)).tensor_map (bufferName C i) = true := by
  induction L with
  | nil => intro ws hr i hi; cases hi
  | cons j L' ih =>
      intro ws hr i hi
      rw [List.foldl_cons]
      rcases List.mem_cons.mp hi with rfl | hi'
      · refine loop_mono L' C _ _ ?_
        rw [createBufferStep]
        refine createTensor_contains_self _ _ ?_
        rw [pushBuffer_rename_map]
        exact hr
      · refine ih _ ?_ i hi'
        rw [createBufferStep_rename]
        exact hr

/-- C6: `create_buffer_category(C, n)` is fatal if `C` already exists, and
otherwise pre-creates `n` tensors whose names are deterministically
derived from the category and the index `1 .. n` and pushes their names
onto `C`'s stack (top = index `n`), each pushed name having an entry in
the tensor registry afterwards; the derived names are pairwise distinct
(shown for a 5-element pool); and on a freshly constructed workspace,
`create_buffer_category("Grad", 1)` fails with the duplicate-category
check because construction already seeds `"Grad"`. -/
theorem c6_createBuffer_seeds_pool (ws : Workspace) (C : String) (num : Nat) :
    (assocContains ws.buffer_map C = true → ws.CreateBuffer C num = none) ∧
    (assocContains ws.buffer_map C = false → ws.rename_map = [] →
      (ws.CreateBuffer C num).map (fun w => stackOf w C) =
        some ((List.range' 1 num).reverse.map (bufferName C)) ∧
      (ws.CreateBuffer C num).map
          (fun w => ((List.range' 1 num).map (bufferName C)).all
            (fun x => assocContains w.tensor_map x)) = some true) ∧
    (((List.range' 1 5).map (bufferName "X")).Nodup ∧
      ((Workspace.construct "W").CreateBuffer "Grad" 1).isNone = true ∧
      ((Workspace.construct "W").CreateBuffer "Pool" 2).map (fun w => stackOf w "Pool") =
        some ["_t_Pool_buffer_2", "_t_Pool_buffer_1"]) := by
  refine ⟨fun h => ?_, fun h hr => ?_, by decide, by decide, by decide⟩
  · simp only [Workspace.CreateBuffer, h, if_true]
  · have hr1 : (ws.setBufferMap (assocSet ws.buffer_map C [])).rename_map = [] := by
      rw [setBufferMap_rename_map]; exact hr
    simp only [Workspace.CreateBuffer, h, Bool.false_eq_true, if_false, Option.map_some']
    constructor
    · rw [loop_stack]
      rw [show stackOf (ws.setBufferMap (assocSet ws.buffer_map C [])) C = [] by
        rw [stackOf, setBufferMap_buffer_map, assocLookup_set_self]; rfl]
      rw [List.append_nil]
    · simp only [Option.some.injEq]
      rw [List.all_eq_true]
      intro x hx
      obtain ⟨i, hi, rfl⟩ := List.mem_map.mp hx
      exact loop_names (List.range' 1 num) C _ hr1 i hi

/-- Witness for C6: both branch hypotheses of `c6_createBuffer_seeds_pool`
are satisfiable on a fresh workspace — `"Grad"` already exists (fatal) and
the new category `"Pool"` seeds two pooled names. -/
theorem c6_createBuffer_seeds_pool_witness :
    (assocContains (Workspace.construct "W").buffer_map "Grad" = true ∧
      (Workspace.construct "W").CreateBuffer "Grad" 1 = none) ∧
    (assocContains (Workspace.construct "W").buffer_map "Pool" = false ∧
      (Workspace.construct "W").rename_map = [] ∧
      ((Workspace.construct "W").CreateBuffer "Pool" 2).map (fun w => stackOf w "Pool") =
        some ["_t_Pool_buffer_2", "_t_Pool_buffer_1"]) :=
  ⟨⟨by decide, (c6_createBuffer_seeds_pool (Workspace.construct "W") "Grad" 1).1 (by decide)⟩,
   ⟨by decide, rfl,
    ((c6_createBuffer_seeds_pool (Workspace.construct "W") "Pool" 2).2.1 (by decide) rfl).1⟩⟩

/-! ## The buffer-pool invariant (C5) -/

/-- Every slot of the tensor registry whose `unique_ptr` is non-null holds
a tensor whose stored name equals its storage key. -/
def tmapConsistent (m : List (String × Option Tensor)) : Bool :=
  m.all (fun p => match p.2 with | some t => t.name == p.1 | none => true)

/-- Every name on any pool stack of `b` is a key of the tensor registry `t`. -/
def stacksContainedL (b : List (String × List String))
    (t : List (String × Option Tensor)) : Bool :=
  b.all (fun p => p.2.all (fun n => assocContains t n))

/-- The claim's invariant: every name currently on any buffer category's
stack corresponds to an existing entry in the workspace's local tensor
registry. -/
def stacksContained (ws : Workspace) : Bool :=
  stacksContainedL ws.buffer_map ws.tensor_map

/-- The inductive invariant carried through the reachable states: no
composed workspaces, no aliases, name-consistent registry slots, and the
pool stacks contained in the registry. -/
def PlainInv (ws : Workspace) : Prop :=
  ws.workspace_map = [] ∧ ws.rename_map = [] ∧
    tmapConsistent ws.tensor_map = true ∧ stacksContained ws = true

lemma assocLookup_mem {α : Type} (m : List (String × α)) (q : String) (v : α)
    (h : assocLookup m q = some v) : (q, v) ∈ m := by
  induction m with
  | nil => exact Option.noConfusion h
  | cons p rest ih =>
      obtain ⟨k, w⟩ := p
      by_cases hk : k = q
      · subst hk
        rw [assocLookup, if_pos rfl] at h
        cases h
        exact List.mem_cons_self _ _
      · rw [assocLookup, if_neg hk] at h
        exact List.mem_cons_of_mem _ (ih h)

lemma tmapConsistent_lookup (m : List (String × Option Tensor)) (k : String) (t : Tensor)
    (hc : tmapConsistent m = true) (h : assocLookup m k = some (some t)) : t.name = k := by
  have hm := assocLookup_mem m k (some t) h
  rw [tmapConsistent, List.all_eq_true] at hc
  exact eq_of_beq (hc _ hm)

lemma tmapConsistent_set (m : List (String × Option Tensor)) (k : String) (t : Tensor)
    (hc : tmapConsistent m = true) (hn : t.name = k) :
    tmapConsistent (assocSet m k (some t)) = true := by
  induction m with
  | nil => simp [tmapConsistent, assocSet, hn]
  | cons p rest ih =>
      obtain ⟨k', v'⟩ := p
      rw [tmapConsistent, List.all_cons, Bool.and_eq_true] at hc
      by_cases hk : k' = k
      · subst hk
        rw [assocSet, if_pos rfl, tmapConsistent, List.all_cons, Bool.and_eq_true]
        exact ⟨by simp [hn], hc.2⟩
      · rw [assocSet, if_neg hk, tmapConsistent, List.all_cons, Bool.and_eq_true]
        exact ⟨hc.1, ih hc.2⟩

lemma tmapConsistent_append_none (m : List (String × Option Tensor)) (k : String)
    (hc : tmapConsistent m = true) : tmapConsistent (m ++ [(k, none)]) = true := by
  rw [tmapConsistent, List.all_append, Bool.and_eq_true]
  exact ⟨hc, by simp [tmapConsistent]⟩

lemma stacksContainedL_mono (b : List (String × List String))
    (t1 t2 : List (String × Option Tensor))
    (hmono : ∀ x, assocContains t1 x = true → assocContains t2 x = true)
    (h : stacksContainedL b t1 = true) : stacksContainedL b t2 = true := by
  rw [stacksContainedL, List.all_eq_true] at h ⊢
  intro p hp
  have h1 := h p hp
  rw [List.all_eq_true] at h1 ⊢
  intro x hx
  exact hmono x (h1 x hx)

lemma stacksContainedL_set (b : List (String × List String))
    (t : List (String × Option Tensor)) (C : String) (stk : List String)
    (hb : stacksContainedL b t = true)
    (hstk : stk.all (fun n => assocContains t n) = true) :
    stacksContainedL (assocSet b C stk) t = true := by
  induction b with
  | nil => simp [stacksContainedL, assocSet, hstk]
  | cons p rest ih =>
      obtain ⟨k', v'⟩ := p
      rw [stacksContainedL, List.all_cons, Bool.and_eq_true] at hb
      by_cases hk : k' = C
      · subst hk
        rw [assocSet, if_pos rfl, stacksContainedL, List.all_cons, Bool.and_eq_true]
        exact ⟨hstk, hb.2⟩
      · rw [assocSet, if_neg hk, stacksContainedL, List.all_cons, Bool.and_eq_true]
        exact ⟨hb.1, ih hb.2⟩

lemma stacksContainedL_append_empty (b : List (String × List String))
    (t : List (String × Option Tensor)) (C : String)
    (hb : stacksContainedL b t = true) :
    stacksContainedL (b ++ [(C, [])]) t = true := by
  rw [stacksContainedL, List.all_append, Bool.and_eq_true]
  exact ⟨hb, by simp [stacksContainedL]⟩

lemma stacksContainedL_stackOf (b : List (String × List String))
    (t : List (String × Option Tensor)) (C : String)
    (h : stacksContainedL b t = true) :
    ((assocLookup b C).getD []).all (fun n => assocContains t n) = true := by
  cases hl : assocLookup b C with
  | none => rfl
  | some stk =>
      rw [stacksContainedL, List.all_eq_true] at h
      exact h _ (assocLookup_mem b C stk hl)

lemma pushBuffer_buffer_map (ws : Workspace) (C n : String) :
    (ws.pushBuffer C n).buffer_map =
      assocSet (ws.ensureBuffer C).buffer_map C (n :: stackOf (ws.ensureBuffer C) C) := by
  simp only [Workspace.pushBuffer, setBufferMap_buffer_map]

set_option maxHeartbeats 4000000 in
/-- The fully evaluated state a fresh workspace is constructed in. -/
lemma construct_eq (wn : String) :
    Workspace.construct wn = Workspace.mk wn []
      [("ignore", some { name := "ignore", resetCount := 0 }),
       ("_t_Common_buffer_1", some { name := "_t_Common_buffer_1", resetCount := 0 }),
       ("_t_Common_buffer_2", some { name := "_t_Common_buffer_2", resetCount := 0 }),
       ("_t_Grad_buffer_1", some { name := "_t_Grad_buffer_1", resetCount := 0 })]
      [("Common", ["_t_Common_buffer_2", "_t_Common_buffer_1"]),
       ("Grad", ["_t_Grad_buffer_1"])]
      [] [] := rfl

lemma plainInv_construct (wn : String) : PlainInv (Workspace.construct wn) := by
  rw [PlainInv, construct_eq]
  refine ⟨rfl, rfl, ?_, ?_⟩
  · show tmapConsistent
      [("ignore", some { name := "ignore", resetCount := 0 }),
       ("_t_Common_buffer_1", some { name := "_t_Common_buffer_1", resetCount := 0 }),
       ("_t_Common_buffer_2", some { name := "_t_Common_buffer_2", resetCount := 0 }),
       ("_t_Grad_buffer_1", some { name := "_t_Grad_buffer_1", resetCount := 0 })] = true
    decide
  · show stacksContainedL
      [("Common", ["_t_Common_buffer_2", "_t_Common_buffer_1"]),
       ("Grad", ["_t_Grad_buffer_1"])]
      [("ignore", some { name := "ignore", resetCount := 0 }),
       ("_t_Common_buffer_1", some { name := "_t_Common_buffer_1", resetCount := 0 }),
       ("_t_Common_buffer_2", some { name := "_t_Common_buffer_2", resetCount := 0 }),
       ("_t_Grad_buffer_1", some { name := "_t_Grad_buffer_1", resetCount := 0 })] = true
    decide

lemma hasTensor_no_remote (ws : Workspace) (n : String) (b : Bool)
    (hw : ws.workspace_map = []) :
    ws.HasTensor n b = assocContains ws.tensor_map (ws.GetTensorName n) := by
  obtain ⟨wn, wmap, tmap, bmap, gmap, rmap⟩ := ws
  simp only [Workspace.workspace_map] at hw
  subst hw
  cases b <;>
    simp [Workspace.HasTensor, remoteHas, Workspace.GetTensorName, Workspace.tensor_map,
      Workspace.rename_map]

lemma tmapConsistent_createTensor (ws : Workspace) (n : String)
    (hr : ws.rename_map = [])
    (hc : tmapConsistent ws.tensor_map = true) :
    tmapConsistent ((ws.CreateTensor n).1).tensor_map = true := by
  have hq : ws.GetTensorName n = n := by
    rw [Workspace.GetTensorName, hr]; rfl
  simp only [Workspace.CreateTensor, hq]
  split
  · cases hl : assocLookup ws.tensor_map n with
    | some s => exact hc
    | none =>
        rw [setTensorMap_tensor_map]
        exact tmapConsistent_append_none _ _ hc
  · rw [setTensorMap_tensor_map]
    exact tmapConsistent_set _ _ _ hc rfl

lemma plainInv_createTensor (ws : Workspace) (n : String) (h : PlainInv ws) :
    PlainInv (ws.CreateTensor n).1 := by
  obtain ⟨hw, hr, hc, hs⟩ := h
  refine ⟨by rw [createTensor_workspace_map]; exact hw,
          by rw [createTensor_rename_map]; exact hr,
          tmapConsistent_createTensor ws n hr hc, ?_⟩
  rw [stacksContained, createTensor_buffer_map]
  exact stacksContainedL_mono _ _ _ (fun x hx => by
    have := createTensor_tensor_mono ws n x hx
    exact this) hs

lemma plainInv_ensureBuffer (ws : Workspace) (C : String) (h : PlainInv ws) :
    PlainInv (ws.ensureBuffer C) := by
  obtain ⟨hw, hr, hc, hs⟩ := h
  refine ⟨by rw [ensureBuffer_workspace_map]; exact hw,
          by rw [ensureBuffer_rename_map]; exact hr,
          by rw [ensureBuffer_tensor_map]; exact hc, ?_⟩
  rw [stacksContained, ensureBuffer_tensor_map, Workspace.ensureBuffer]
  cases hl : assocLookup ws.buffer_map C with
  | some s => exact hs
  | none =>
      rw [setBufferMap_buffer_map]
      exact stacksContainedL_append_empty _ _ _ hs

lemma plainInv_pushBuffer_of_contains (ws : Workspace) (C n : String) (h : PlainInv ws)
    (hn : assocContains ws.tensor_map n = true) : PlainInv (ws.pushBuffer C n) := by
  obtain ⟨hw, hr, hc, hs⟩ := h
  have hens := (plainInv_ensureBuffer ws C ⟨hw, hr, hc, hs⟩).2.2.2
  rw [stacksContained, ensureBuffer_tensor_map] at hens
  refine ⟨by rw [pushBuffer_workspace_map]; exact hw,
          by rw [pushBuffer_rename_map]; exact hr,
          by rw [pushBuffer_tensor_map]; exact hc, ?_⟩
  rw [stacksContained, pushBuffer_tensor_map, pushBuffer_buffer_map]
  refine stacksContainedL_set _ _ _ _ hens ?_
  rw [List.all_cons, Bool.and_eq_true]
  exact ⟨hn, stacksContainedL_stackOf _ _ C hens⟩

lemma plainInv_releaseTensor (ws ws' : Workspace) (n : String)
    (h : ws.ReleaseTensor n = some ws') (hp : PlainInv ws) : PlainInv ws' := by
  obtain ⟨hw, hr, hc, hs⟩ := hp
  simp only [Workspace.ReleaseTensor] at h
  split at h
  case isTrue hhas =>
    split at h
    case h_1 t heq =>
      cases h
      refine ⟨by rw [setTensorMap_workspace_map]; exact hw,
              by rw [setTensorMap_rename_map]; exact hr, ?_, ?_⟩
      · rw [setTensorMap_tensor_map]
        refine tmapConsistent_set _ _ _ hc ?_
        have hname : t.name = ws.GetTensorName n := tmapConsistent_lookup _ _ _ hc heq
        exact hname
      · rw [stacksContained, setTensorMap_buffer_map, setTensorMap_tensor_map]
        exact stacksContainedL_mono _ _ _
          (fun x hx => assocContains_mono_set _ _ _ _ hx) hs
    case h_2 => exact Option.noConfusion h
  case isFalse => exact Option.noConfusion h

lemma plainInv_step (C : String) (i : Nat) (w : Workspace) (h : PlainInv w) :
    PlainInv (createBufferStep C w i) := by
  obtain ⟨hw, hr, hc, hs⟩ := h
  have hpw : (w.pushBuffer C (bufferName C i)).rename_map = [] := by
    rw [pushBuffer_rename_map]; exact hr
  refine ⟨?_, ?_, ?_, ?_⟩
  · rw [createBufferStep, createTensor_workspace_map, pushBuffer_workspace_map]; exact hw
  · rw [createBufferStep, createTensor_rename_map]; exact hpw
  · rw [createBufferStep]
    refine tmapConsistent_createTensor _ _ hpw ?_
    rw [pushBuffer_tensor_map]; exact hc
  · have hens := (plainInv_ensureBuffer w C ⟨hw, hr, hc, hs⟩).2.2.2
    rw [stacksContained, ensureBuffer_tensor_map] at hens
    rw [createBufferStep, stacksContained, createTensor_buffer_map, pushBuffer_buffer_map]
    refine stacksContainedL_set _ _ _ _ ?_ ?_
    · refine stacksContainedL_mono _ w.tensor_map _
        (fun x hx => createTensor_tensor_mono _ _ x (by rw [pushBuffer_tensor_map]; exact hx))
        hens
    · rw [List.all_cons, Bool.and_eq_true]
      constructor
      · exact createTensor_contains_self _ _ hpw
      · refine List.all_eq_true.mpr (fun x hx => ?_)
        refine createTensor_tensor_mono _ _ x ?_
        rw [pushBuffer_tensor_map]
        have h2 := stacksContainedL_stackOf (w.ensureBuffer C).buffer_map w.tensor_map C hens
        exact List.all_eq_true.mp h2 x hx

lemma plainInv_loop (L : List Nat) (C : String) :
    ∀ w : Workspace, PlainInv w → PlainInv (L.foldl (createBufferStep C) w) := by
  induction L with
  | nil => intro w h; exact h
  | cons i L' ih =>
      intro w h
      rw [List.foldl_cons]
      exact ih _ (plainInv_step C i w h)

lemma plainInv_createBuffer (ws ws' : Workspace) (C : String) (num : Nat)
    (h : ws.CreateBuffer C num = some ws') (hp : PlainInv ws) : PlainInv ws' := by
  obtain ⟨hw, hr, hc, hs⟩ := hp
  simp only [Workspace.CreateBuffer] at h
  split at h
  · exact Option.noConfusion h
  · cases h
    refine plainInv_loop _ _ _ ?_
    refine ⟨by rw [setBufferMap_workspace_map]; exact hw,
            by rw [setBufferMap_rename_map]; exact hr,
            by rw [setBufferMap_tensor_map]; exact hc, ?_⟩
    rw [stacksContained, setBufferMap_buffer_map, setBufferMap_tensor_map]
    exact stacksContainedL_set _ _ _ _ hs rfl

lemma plainInv_getBuffer (ws ws' : Workspace) (C : String) (p : TensorPtr)
    (h : ws.GetBuffer C = some (ws', p)) (hp : PlainInv ws) : PlainInv ws' := by
  have h1 := plainInv_ensureBuffer ws C hp
  obtain ⟨hw1, hr1, hc1, hs1⟩ := h1
  simp only [Workspace.GetBuffer] at h
  split at h
  case h_1 => exact Option.noConfusion h
  case h_2 n rest heq =>
    have hrest : rest.all (fun x => assocContains (ws.ensureBuffer C).tensor_map x) = true := by
      have h2 := stacksContainedL_stackOf (ws.ensureBuffer C).buffer_map
        (ws.ensureBuffer C).tensor_map C (by rw [stacksContained] at hs1; exact hs1)
      rw [← stackOf, heq, List.all_cons, Bool.and_eq_true] at h2
      exact h2.2
    have hpop : PlainInv ((ws.ensureBuffer C).setBufferMap
        (assocSet (ws.ensureBuffer C).buffer_map C rest)) := by
      refine ⟨by rw [setBufferMap_workspace_map]; exact hw1,
              by rw [setBufferMap_rename_map]; exact hr1,
              by rw [setBufferMap_tensor_map]; exact hc1, ?_⟩
      rw [stacksContained, setBufferMap_buffer_map, setBufferMap_tensor_map]
      refine stacksContainedL_set _ _ _ _ ?_ hrest
      rw [stacksContained] at hs1
      exact hs1
    split at h
    case h_1 slot hslot =>
      cases h
      exact hpop
    case h_2 hnone =>
      cases h
      obtain ⟨hw2, hr2, hc2, hs2⟩ := hpop
      refine ⟨by rw [setTensorMap_workspace_map]; exact hw2,
              by rw [setTensorMap_rename_map]; exact hr2,
              by rw [setTensorMap_tensor_map]; exact tmapConsistent_append_none _ _ hc2, ?_⟩
      rw [stacksContained, setTensorMap_buffer_map, setTensorMap_tensor_map]
      exact stacksContainedL_mono _ _ _
        (fun x hx => assocContains_append _ _ _ hx) hs2

lemma plainInv_releaseBuffer (ws ws' : Workspace) (t : Tensor) (k C : String)
    (enforce : Bool) (hk : assocLookup ws.tensor_map k = some (some t))
    (h : ws.ReleaseBuffer t C enforce = some ws') (hp : PlainInv ws) : PlainInv ws' := by
  have h1 := plainInv_ensureBuffer ws C hp
  simp only [Workspace.ReleaseBuffer] at h
  split at h
  · exact plainInv_releaseTensor _ _ _ h h1
  · cases h
    refine plainInv_pushBuffer_of_contains _ _ _ h1 ?_
    rw [ensureBuffer_tensor_map]
    have hname : t.name = k := tmapConsistent_lookup _ _ _ hp.2.2.1 hk
    rw [hname, assocContains, hk]
    rfl

/-- The workspace states reachable by the operations the claim names:
construction, `create_tensor`, `create_buffer_category`, `acquire_buffer`
(the successful pop), `release_buffer` called with a handle the workspace
itself stores (the only `Tensor*` values its API hands out in these
states), and `release_tensor`. -/
inductive Reachable : Workspace → Prop where
  | construct (wn : String) : Reachable (Workspace.construct wn)
  | create_tensor (ws : Workspace) (n : String) :
      Reachable ws → Reachable (ws.CreateTensor n).1
  | create_buffer (ws ws' : Workspace) (C : String) (num : Nat) :
      Reachable ws → ws.CreateBuffer C num = some ws' → Reachable ws'
  | get_buffer (ws ws' : Workspace) (C : String) (p : TensorPtr) :
      Reachable ws → ws.GetBuffer C = some (ws', p) → Reachable ws'
  | release_buffer (ws ws' : Workspace) (t : Tensor) (k C : String) (enforce : Bool) :
      Reachable ws → assocLookup ws.tensor_map k = some (some t) →
      ws.ReleaseBuffer t C enforce = some ws' → Reachable ws'
  | release_tensor (ws ws' : Workspace) (n : String) :
      Reachable ws → ws.ReleaseTensor n = some ws' → Reachable ws'

lemma reachable_plainInv (ws : Workspace) (h : Reachable ws) : PlainInv ws := by
  induction h with
  | construct wn => exact plainInv_construct wn
  | create_tensor ws n _ ih => exact plainInv_createTensor ws n ih
  | create_buffer ws ws' C num _ heq ih => exact plainInv_createBuffer ws ws' C num heq ih
  | get_buffer ws ws' C p _ heq ih => exact plainInv_getBuffer ws ws' C p heq ih
  | release_buffer ws ws' t k C enforce _ hk heq ih =>
      exact plainInv_releaseBuffer ws ws' t k C enforce hk heq ih
  | release_tensor ws ws' n _ heq ih => exact plainInv_releaseTensor ws ws' n heq ih

/-- C5: in every workspace state reachable through construction,
`create_tensor`, `create_buffer_category`, `acquire_buffer`,
`release_buffer` (with a workspace-stored handle) and `release_tensor`,
every name currently on any buffer category's stack corresponds to an
existing entry in the workspace's local tensor registry. -/
theorem c5_buffer_stack_invariant (ws : Workspace) (h : Reachable ws) :
    stacksContained ws = true :=
  (reachable_plainInv ws h).2.2.2

/-- Witness for C5: the hypothesis of `c5_buffer_stack_invariant` is
satisfiable at a state reached by constructing `"W"` and acquiring one
`"Common"` buffer, and the invariant evaluates to true there. -/
theorem c5_buffer_stack_invariant_witness :
    Reachable c4w1 ∧ stacksContained c4w1 = true :=
  have h1 : Reachable c4w1 :=
    Reachable.get_buffer c4w0 c4w1 "Common" (TensorPtr.mk "W" "_t_Common_buffer_2")
      (Reachable.construct "W") (by rfl)
  ⟨h1, c5_buffer_stack_invariant c4w1 h1⟩

end Dragon
